import Mathlib

/-!
Shallow embedding of the two n-points scripts
(`n-points-line-random.py` and `n-points-trials.py`) and proofs about the
claims of the natural-language specification.

Coordinates are modelled as real numbers; `math.sqrt` is `Real.sqrt`,
Python float floor-division is `Int.floor` of the real quotient, and the
injected random sources (`random.randint`, `random.random`) are explicit
parameters.  Predicates that the scripts compute by short-circuiting loops
are modelled as the equivalent propositions.
-/

set_option maxHeartbeats 1000000
set_option linter.unusedVariables false

open Real
open Classical

/-- A point record `(x, y, focus_x, focus_y)` as used by both scripts. -/
structure Pt where
  x : ℝ
  y : ℝ
  fx : ℝ
  fy : ℝ

theorem Pt.ext_iff2 (p q : Pt) : p = q ↔ p.x = q.x ∧ p.y = q.y ∧ p.fx = q.fx ∧ p.fy = q.fy := by
  constructor
  · rintro rfl; exact ⟨rfl, rfl, rfl, rfl⟩
  · rintro ⟨h1, h2, h3, h4⟩; cases p; cases q; simp_all

/-- `closest_distance_to_line(m, b, x, y)`: distance from `(x, y)` to the
line `y = m*x + b`, exactly as the source computes it. -/
noncomputable def closest_distance_to_line (m b x y : ℝ) : ℝ :=
  let linex := (-b + y + x / m) / (m + 1 / m)
  let liney := m * linex + b
  Real.sqrt ((x - linex) ^ 2 + (y - liney) ^ 2)

/-- `self_intersect(points, radius)`: some pair of points has squared
center distance below `4*radius**2`. -/
def self_intersect (points : List Pt) (radius : ℝ) : Prop :=
  ∃ i j : Fin points.length, (i : ℕ) < (j : ℕ) ∧
    ((points.get i).x - (points.get j).x) ^ 2 +
      ((points.get i).y - (points.get j).y) ^ 2 < 4 * radius ^ 2

/-- The degenerate-coincidence scan performed at the top of both
`in_violation` and `in_violation_full`: two points share both coordinates. -/
def degenerate_pair (points : List Pt) : Prop :=
  ∃ i j : Fin points.length, (i : ℕ) < (j : ℕ) ∧
    (points.get i).x = (points.get j).x ∧ (points.get i).y = (points.get j).y

namespace LineRandom

/-- `intersect_origin_line(points, radius)` of `n-points-line-random.py`:
some point has `y < radius`. -/
def intersect_origin_line (points : List Pt) (radius : ℝ) : Prop :=
  ∃ p ∈ points, p.y < radius

/-- `is_blocked(p1, points, radius)` of `n-points-line-random.py`
(half-plane "behind" policy: a strictly higher point never blocks). -/
def is_blocked (p1 : Pt) (points : List Pt) (radius : ℝ) : Prop :=
  let m := (p1.y - p1.fy + 0.01) / (p1.x - p1.fx + 0.01)
  let b := p1.y - m * p1.x
  ∃ p2 ∈ points, p2 ≠ p1 ∧ ¬(p1.y < p2.y) ∧
    closest_distance_to_line m b p2.x p2.y < radius

/-- `in_violation(points, radius, arena_size)` of `n-points-line-random.py`:
degenerate coincidence, pairwise overlap, or half-plane boundary violation.
(`arena_size` is accepted and ignored, as in the source.) -/
def in_violation (points : List Pt) (radius arena_size : ℝ) : Prop :=
  degenerate_pair points ∨ self_intersect points radius ∨
    intersect_origin_line points radius

end LineRandom

namespace Trials

/-- `intersect_origin(points, radius)` of `n-points-trials.py`:
some point is within `radius` of the origin. -/
def intersect_origin (points : List Pt) (radius : ℝ) : Prop :=
  ∃ p ∈ points, p.x ^ 2 + p.y ^ 2 < radius ^ 2

/-- `is_blocked(p1, points, radius)` of `n-points-trials.py`
(radial "behind" policy: points farther from the origin, or in a
diagonally opposite quadrant, never block). -/
def is_blocked (p1 : Pt) (points : List Pt) (radius : ℝ) : Prop :=
  let m := (p1.y - p1.fy + 0.01) / (p1.x - p1.fx + 0.01)
  let b := p1.y - m * p1.x
  ∃ p2 ∈ points, p2 ≠ p1 ∧
    ¬(p1.y ^ 2 + p1.x ^ 2 < p2.x ^ 2 + p2.y ^ 2 ∨
      (p1.x * p2.x < 0 ∧ p1.y * p2.y < 0)) ∧
    closest_distance_to_line m b p2.x p2.y < radius

/-- `in_violation_full(points, radius, arena_size)` of `n-points-trials.py`:
degenerate coincidence, pairwise overlap, origin-disk violation, or some
point's line of sight blocked.  (`arena_size` is accepted and ignored,
as in the source.) -/
def in_violation_full (points : List Pt) (radius arena_size : ℝ) : Prop :=
  degenerate_pair points ∨ self_intersect points radius ∨
    intersect_origin points radius ∨ ∃ p ∈ points, is_blocked p points radius

end Trials

/-- Claim C8: for every slope `m ≠ 0`, every intercept `b`, and every point
`(x, y)` lying exactly on the line `y = m*x + b`, `closest_distance_to_line`
returns exactly `0`. -/
theorem closest_distance_to_line_on_line_eq_zero
    (m b x y : ℝ) (hm : m ≠ 0) (hxy : y = m * x + b) :
    closest_distance_to_line m b x y = 0 := by
  have hden : m + 1 / m ≠ 0 := by
    intro h
    have h2 : (m ^ 2 + 1) / m = 0 := by
      field_simp at h ⊢
      nlinarith [h]
    have h3 : m ^ 2 + 1 = 0 := by
      field_simp at h2
      exact h2
    nlinarith
  have hlx : (-b + y + x / m) / (m + 1 / m) = x := by
    subst hxy
    have hnum : -b + (m * x + b) + x / m = x * (m + 1 / m) := by
      field_simp
      ring
    rw [hnum, mul_div_cancel_right₀ _ hden]
  unfold closest_distance_to_line
  simp only [hlx]
  have hly : m * x + b - (m * x + b) = 0 := by ring
  rw [hxy]
  simp [hly]

/-- Witness for C8 at `m = 2`, `b = 3`, `x = 5`, `y = 13`. -/
theorem closest_distance_to_line_on_line_eq_zero_witness :
    (2 : ℝ) ≠ 0 ∧ (13 : ℝ) = 2 * 5 + 3 ∧
      closest_distance_to_line 2 3 5 13 = 0 := by
  refine ⟨by norm_num, by norm_num, ?_⟩
  exact closest_distance_to_line_on_line_eq_zero 2 3 5 13 (by norm_num) (by norm_num)

/-- The Euclidean distance from a point to its focus, as computed by
`sum_forces` and the distance-based quality metrics. -/
noncomputable def focus_distance (p : Pt) : ℝ :=
  Real.sqrt ((p.x - p.fx) ^ 2 + (p.y - p.fy) ^ 2)

namespace Trials

/-- One term of `inv_sq_distances` inside `dynamics`:
`radius * radius * ((x[0]-x[2])**2 + (x[1]-x[3])**2)**(-1)`. -/
noncomputable def inv_sq_term (radius : ℝ) (p : Pt) : ℝ :=
  radius * radius * ((p.x - p.fx) ^ 2 + (p.y - p.fy) ^ 2)⁻¹

/-- `power = sum(inv_sq_distances)` inside `dynamics`. -/
noncomputable def power_metric (radius : ℝ) (points : List Pt) : ℝ :=
  (points.map (inv_sq_term radius)).sum

/-- `magnitude = max(1, radius - 10 * (step/100))` inside `dynamics`. -/
noncomputable def magnitude_at (radius : ℝ) (step : ℕ) : ℝ :=
  max 1 (radius - 10 * ((step : ℝ) / 100))

/-- One execution of `repulse_d = max(0, repulse_d - 0.1*step//1000)`:
by precedence this subtracts `(0.1*step)//1000` from the running value. -/
noncomputable def repulse_d_next (rd : ℝ) (step : ℕ) : ℝ :=
  max 0 (rd - (⌊0.1 * (step : ℝ) / 1000⌋ : ℤ))

/-- One execution of `repulse = max(0, repulse - 0.5 * step//1000)`:
by precedence this subtracts `(0.5*step)//1000` from the running value. -/
noncomputable def repulse_next (rs : ℝ) (step : ℕ) : ℝ :=
  max 0 (rs - (⌊0.5 * (step : ℝ) / 1000⌋ : ℤ))

/-- The value held by `repulse_d` during loop iteration `step` of a trial
(the update line runs at the top of every iteration). -/
noncomputable def repulse_d_at (rd0 : ℝ) : ℕ → ℝ
  | 0 => repulse_d_next rd0 0
  | s + 1 => repulse_d_next (repulse_d_at rd0 s) (s + 1)

/-- The value held by `repulse` during loop iteration `step` of a trial. -/
noncomputable def repulse_at (rs0 : ℝ) : ℕ → ℝ
  | 0 => repulse_next rs0 0
  | s + 1 => repulse_next (repulse_at rs0 s) (s + 1)

/-- Modelled from the spec (for comparison only): `repulseDistance` decayed
from its initial value by `0.1` per 1000 elapsed steps, floored at 0. -/
noncomputable def spec_repulse_d_schedule (rd0 : ℝ) (step : ℕ) : ℝ :=
  max 0 (rd0 - 0.1 * ((step : ℝ) / 1000))

/-- Modelled from the spec (for comparison only): `repulseStrength` decayed
from its initial value by `0.5` per 1000 elapsed steps, floored at 0. -/
noncomputable def spec_repulse_schedule (rs0 : ℝ) (step : ℕ) : ℝ :=
  max 0 (rs0 - 0.5 * ((step : ℝ) / 1000))

end Trials

lemma floor_eq_zero_of_Ico {x : ℝ} (h0 : 0 ≤ x) (h1 : x < 1) : ⌊x⌋ = 0 :=
  Int.floor_eq_zero_iff.mpr ⟨h0, h1⟩

lemma repulse_d_floor_zero {s : ℕ} (hs : s ≤ 9999) :
    ⌊0.1 * (s : ℝ) / 1000⌋ = 0 := by
  apply floor_eq_zero_of_Ico
  · positivity
  · have : (s : ℝ) ≤ 9999 := by exact_mod_cast hs
    nlinarith

lemma repulse_floor_zero {s : ℕ} (hs : s ≤ 1999) :
    ⌊0.5 * (s : ℝ) / 1000⌋ = 0 := by
  apply floor_eq_zero_of_Ico
  · positivity
  · have : (s : ℝ) ≤ 1999 := by exact_mod_cast hs
    nlinarith

lemma repulse_d_at_const (rd0 : ℝ) (h0 : 0 ≤ rd0) :
    ∀ s : ℕ, s ≤ 9999 → Trials.repulse_d_at rd0 s = rd0 := by
  intro s
  induction s with
  | zero =>
    intro _
    simp [Trials.repulse_d_at, Trials.repulse_d_next,
      repulse_d_floor_zero (by norm_num : (0:ℕ) ≤ 9999), h0]
  | succ n ih =>
    intro hs
    have hn : n ≤ 9999 := Nat.le_of_succ_le hs
    have hfl : ⌊0.1 * ((n + 1 : ℕ) : ℝ) / 1000⌋ = 0 := repulse_d_floor_zero hs
    rw [Trials.repulse_d_at, ih hn]
    unfold Trials.repulse_d_next
    rw [hfl]
    simp [h0]

lemma repulse_at_const (rs0 : ℝ) (h0 : 0 ≤ rs0) :
    ∀ s : ℕ, s ≤ 1999 → Trials.repulse_at rs0 s = rs0 := by
  intro s
  induction s with
  | zero =>
    intro _
    simp [Trials.repulse_at, Trials.repulse_next,
      repulse_floor_zero (by norm_num : (0:ℕ) ≤ 1999), h0]
  | succ n ih =>
    intro hs
    have hn : n ≤ 1999 := Nat.le_of_succ_le hs
    have hfl : ⌊0.5 * ((n + 1 : ℕ) : ℝ) / 1000⌋ = 0 := repulse_floor_zero hs
    rw [Trials.repulse_at, ih hn]
    unfold Trials.repulse_next
    rw [hfl]
    simp [h0]

/-- Claim C4, counterexample: with the default initial `repulse_d = 2.1`, at
step 1000 the engine still holds `2.1`, while the claimed schedule says the
value has decayed to `2`. -/
theorem annealing_schedule_counterexample :
    Trials.repulse_d_at 2.1 1000 = 2.1 ∧
      Trials.spec_repulse_d_schedule 2.1 1000 = 2 ∧ (2.1 : ℝ) ≠ 2 := by
  refine ⟨repulse_d_at_const 2.1 (by norm_num) 1000 (by norm_num), ?_, by norm_num⟩
  unfold Trials.spec_repulse_d_schedule
  norm_num

/-- Claim C4, amended: the step magnitude follows
`max(1, radius - 10*(step/100)) = max(1, radius - step/10)` as claimed, but
`repulse_d` and `repulse` are updated cumulatively each iteration by
subtracting `(0.1*step)//1000` resp. `(0.5*step)//1000` from the running
value; hence `repulse_d` never decays within the 10000-step budget, and
`repulse` first decays at step 2000 (by a whole unit). -/
theorem annealing_schedule_amended :
    (∀ (radius : ℝ) (s : ℕ),
        Trials.magnitude_at radius s = max 1 (radius - (s : ℝ) / 10)) ∧
    (∀ rd0 : ℝ, 0 ≤ rd0 → ∀ s : ℕ, s ≤ 9999 → Trials.repulse_d_at rd0 s = rd0) ∧
    (∀ rs0 : ℝ, 0 ≤ rs0 → ∀ s : ℕ, s ≤ 1999 → Trials.repulse_at rs0 s = rs0) ∧
    (∀ rs0 : ℝ, 0 ≤ rs0 → Trials.repulse_at rs0 2000 = max 0 (rs0 - 1)) := by
  refine ⟨?_, fun rd0 h0 => repulse_d_at_const rd0 h0,
    fun rs0 h0 => repulse_at_const rs0 h0, fun rs0 h0 => ?_⟩
  · intro radius s
    unfold Trials.magnitude_at
    ring_nf
  · show Trials.repulse_next (Trials.repulse_at rs0 1999) 2000 = max 0 (rs0 - 1)
    rw [repulse_at_const rs0 h0 1999 (by norm_num)]
    unfold Trials.repulse_next
    have hfl : ⌊0.5 * ((2000 : ℕ) : ℝ) / 1000⌋ = 1 := by
      have : (0.5 : ℝ) * ((2000 : ℕ) : ℝ) / 1000 = 1 := by norm_num
      rw [this, Int.floor_one]
    rw [hfl]
    norm_num

/-- Witness for the amended C4 at concrete schedule inputs. -/
theorem annealing_schedule_amended_witness :
    (0 : ℝ) ≤ 2.1 ∧ Trials.repulse_d_at 2.1 500 = 2.1 ∧
      (0 : ℝ) ≤ 50 ∧ Trials.repulse_at 50 1000 = 50 ∧
      Trials.repulse_at 50 2000 = max 0 (50 - 1) ∧
      Trials.magnitude_at 200 0 = max 1 (200 - ((0 : ℕ) : ℝ) / 10) := by
  refine ⟨by norm_num, ?_, by norm_num, ?_, ?_, ?_⟩
  · exact annealing_schedule_amended.2.1 2.1 (by norm_num) 500 (by norm_num)
  · exact annealing_schedule_amended.2.2.1 50 (by norm_num) 1000 (by norm_num)
  · exact annealing_schedule_amended.2.2.2 50 (by norm_num)
  · exact annealing_schedule_amended.1 200 0

lemma sqrt_eq_of_sq {a b : ℝ} (hb : 0 ≤ b) (h : a = b ^ 2) : Real.sqrt a = b := by
  rw [h, Real.sqrt_sq hb]

lemma pairwise_of_not_self_intersect {points : List Pt} {radius : ℝ}
    (h : ¬ self_intersect points radius) :
    ∀ i j : Fin points.length, i ≠ j →
      4 * radius ^ 2 ≤ ((points.get i).x - (points.get j).x) ^ 2 +
        ((points.get i).y - (points.get j).y) ^ 2 := by
  intro i j hij
  by_contra hlt
  push_neg at hlt
  have hv : (i : ℕ) ≠ (j : ℕ) := fun h2 => hij (Fin.ext h2)
  rcases lt_or_gt_of_ne hv with hvlt | hvgt
  · exact h ⟨i, j, hvlt, hlt⟩
  · exact h ⟨j, i, hvgt, by nlinarith [hlt]⟩

/-- Claim C5: a configuration accepted by either validator has all pairwise
squared center distances at least `4*radius^2` and satisfies the variant's
boundary predicate (`y >= radius` in the half-plane variant;
`x^2 + y^2 >= radius^2` in the origin-disk variant). -/
theorem accepted_config_invariants :
    (∀ (points : List Pt) (radius arena_size : ℝ),
        ¬ LineRandom.in_violation points radius arena_size →
        (∀ i j : Fin points.length, i ≠ j →
            4 * radius ^ 2 ≤ ((points.get i).x - (points.get j).x) ^ 2 +
              ((points.get i).y - (points.get j).y) ^ 2) ∧
        (∀ p ∈ points, radius ≤ p.y)) ∧
    (∀ (points : List Pt) (radius arena_size : ℝ),
        ¬ Trials.in_violation_full points radius arena_size →
        (∀ i j : Fin points.length, i ≠ j →
            4 * radius ^ 2 ≤ ((points.get i).x - (points.get j).x) ^ 2 +
              ((points.get i).y - (points.get j).y) ^ 2) ∧
        (∀ p ∈ points, radius ^ 2 ≤ p.x ^ 2 + p.y ^ 2)) := by
  constructor
  · intro points radius arena_size h
    rw [LineRandom.in_violation, not_or, not_or] at h
    refine ⟨pairwise_of_not_self_intersect h.2.1, ?_⟩
    have hb := h.2.2
    rw [LineRandom.intersect_origin_line] at hb
    push_neg at hb
    exact hb
  · intro points radius arena_size h
    rw [Trials.in_violation_full, not_or, not_or, not_or] at h
    refine ⟨pairwise_of_not_self_intersect h.2.1, ?_⟩
    have hb := h.2.2.1
    rw [Trials.intersect_origin] at hb
    push_neg at hb
    exact hb

lemma c5_example_line :
    ¬ LineRandom.in_violation [⟨0, 1, 0, 0⟩, ⟨5, 1, 0, 0⟩] 1 99 := by
  rintro (h | h | h)
  · obtain ⟨i, j, hij, hx, hy⟩ := h
    fin_cases i <;> fin_cases j <;> simp_all <;> norm_num at hx
  · obtain ⟨i, j, hij, hd⟩ := h
    fin_cases i <;> fin_cases j <;> simp_all <;> norm_num at hd
  · obtain ⟨p, hp, hy⟩ := h
    simp only [List.mem_cons, List.mem_singleton, List.not_mem_nil] at hp
    rcases hp with rfl | hp
    · norm_num at hy
    · rcases hp with rfl | hp
      · norm_num at hy
      · simp at hp

lemma c5_example_trials :
    ¬ Trials.in_violation_full [⟨0, 5, 0, 0⟩] 1 99 := by
  rintro (h | h | h | h)
  · obtain ⟨i, j, hij, hx, hy⟩ := h
    fin_cases i <;> fin_cases j <;> simp_all
  · obtain ⟨i, j, hij, hd⟩ := h
    fin_cases i <;> fin_cases j <;> simp_all
  · obtain ⟨p, hp, hlt⟩ := h
    simp only [List.mem_singleton] at hp
    subst hp
    norm_num at hlt
  · obtain ⟨p, hp, hb⟩ := h
    simp only [List.mem_singleton] at hp
    subst hp
    obtain ⟨p2, hp2, hne, _⟩ := hb
    simp only [List.mem_singleton] at hp2
    exact hne hp2

/-- Witness for C5 at two concrete accepted configurations. -/
theorem accepted_config_invariants_witness :
    ¬ LineRandom.in_violation [⟨0, 1, 0, 0⟩, ⟨5, 1, 0, 0⟩] 1 99 ∧
    ¬ Trials.in_violation_full [⟨0, 5, 0, 0⟩] 1 99 ∧
    (1 : ℝ) ≤ (Pt.mk 0 1 0 0).y ∧
    (1 : ℝ) ^ 2 ≤ (Pt.mk 0 5 0 0).x ^ 2 + (Pt.mk 0 5 0 0).y ^ 2 :=
  ⟨c5_example_line, c5_example_trials,
    (accepted_config_invariants.1 _ 1 99 c5_example_line).2 _ (by simp),
    (accepted_config_invariants.2 _ 1 99 c5_example_trials).2 _ (by simp)⟩

/-- Claim C6: if configuration B differs from configuration A only in that
one point's focus distance is strictly smaller (all other points equal, all
focus distances nonzero in both), then B's inverse-square-sum quality metric
(with the engine's radius 200) is strictly greater than A's. -/
theorem power_metric_single_closer_focus_gt
    (xs ys : List Pt) (a b : Pt)
    (hA : ∀ p ∈ xs ++ a :: ys, focus_distance p ≠ 0)
    (hB : ∀ p ∈ xs ++ b :: ys, focus_distance p ≠ 0)
    (hlt : focus_distance b < focus_distance a) :
    Trials.power_metric 200 (xs ++ a :: ys) <
      Trials.power_metric 200 (xs ++ b :: ys) := by
  have hbmem : b ∈ xs ++ b :: ys :=
    List.mem_append_right _ (List.mem_cons_self b ys)
  have hb0 : 0 < focus_distance b :=
    lt_of_le_of_ne (Real.sqrt_nonneg _) (Ne.symm (hB b hbmem))
  have ha0 : 0 < focus_distance a := lt_trans hb0 hlt
  have hsb : (b.x - b.fx) ^ 2 + (b.y - b.fy) ^ 2 = focus_distance b ^ 2 :=
    (Real.sq_sqrt (by positivity)).symm
  have hsa : (a.x - a.fx) ^ 2 + (a.y - a.fy) ^ 2 = focus_distance a ^ 2 :=
    (Real.sq_sqrt (by positivity)).symm
  have hterm : Trials.inv_sq_term 200 a < Trials.inv_sq_term 200 b := by
    unfold Trials.inv_sq_term
    rw [hsa, hsb]
    have hsq : focus_distance b ^ 2 < focus_distance a ^ 2 := by nlinarith
    have hinv : (focus_distance a ^ 2)⁻¹ < (focus_distance b ^ 2)⁻¹ := by
      exact inv_lt_inv_of_lt (by positivity) hsq
    nlinarith [hinv]
  unfold Trials.power_metric
  rw [List.map_append, List.map_append, List.sum_append, List.sum_append,
    List.map_cons, List.map_cons, List.sum_cons, List.sum_cons]
  linarith [hterm]

/-- Witness for C6: moving the lone point's focus distance from 5 to 3
strictly increases the metric. -/
theorem power_metric_single_closer_focus_gt_witness :
    focus_distance ⟨0, 3, 0, 0⟩ < focus_distance ⟨3, 4, 0, 0⟩ ∧
      Trials.power_metric 200 ([] ++ (⟨3, 4, 0, 0⟩ : Pt) :: []) <
        Trials.power_metric 200 ([] ++ (⟨0, 3, 0, 0⟩ : Pt) :: []) := by
  have h1 : focus_distance (Pt.mk 3 4 0 0) = 5 := by
    unfold focus_distance
    exact sqrt_eq_of_sq (by norm_num) (by norm_num)
  have h2 : focus_distance (Pt.mk 0 3 0 0) = 3 := by
    unfold focus_distance
    exact sqrt_eq_of_sq (by norm_num) (by norm_num)
  have hlt : focus_distance (Pt.mk 0 3 0 0) < focus_distance (Pt.mk 3 4 0 0) := by
    rw [h1, h2]; norm_num
  refine ⟨hlt, ?_⟩
  apply power_metric_single_closer_focus_gt [] [] _ _ ?_ ?_ hlt
  · intro p hp
    simp only [List.nil_append, List.mem_singleton] at hp
    subst hp
    rw [h1]; norm_num
  · intro p hp
    simp only [List.nil_append, List.mem_singleton] at hp
    subst hp
    rw [h2]; norm_num

namespace LineRandom

/-- The `[1, -1]` side list scanned by `assign_foci`. -/
def sides : List ℝ := [1, -1]

/-- The candidate focus x-positions scanned for one point with base
x-coordinate `b`: `for d in range(arena_size): for side in [1, -1]:
x = b + side * d`. -/
def scan_xs (b : ℝ) (arena_size : ℕ) : List ℝ :=
  (List.range arena_size).flatMap (fun d => sides.map (fun side => b + side * (d : ℝ)))

/-- The inner candidate scan of `assign_foci` for the point at index `i`
(whose position row is `base`): skip out-of-range candidates, place each
remaining candidate focus into the working list, and return the first one
that is not blocked; `none` when the scan is exhausted. -/
noncomputable def scan_point (ctx : List Pt) (i : ℕ) (base : Pt)
    (radius max_x min_x : ℝ) : List ℝ → Option Pt
  | [] => none
  | x :: rest =>
    if x > max_x ∨ x < min_x then scan_point ctx i base radius max_x min_x rest
    else
      let new_p : Pt := ⟨base.x, base.y, x, 0⟩
      if is_blocked new_p (ctx.set i new_p) radius then
        scan_point ctx i base radius max_x min_x rest
      else some new_p

/-- The outer loop of `assign_foci`: process the points in order, committing
each successful reassignment into the working list; on the first point whose
scan is exhausted, return `(False, points)` where `points` is the original
input list. -/
noncomputable def assign_go (orig : List Pt) (radius : ℝ) (arena_size : ℕ)
    (max_x min_x : ℝ) : ℕ → ℕ → List Pt → Bool × List Pt
  | 0, _, ctx => (true, ctx)
  | fuel + 1, i, ctx =>
    let base := ctx.getD i ⟨0, 0, 0, 0⟩
    match scan_point ctx i base radius max_x min_x (scan_xs base.x arena_size) with
    | none => (false, orig)
    | some q => assign_go orig radius arena_size max_x min_x fuel (i + 1) (ctx.set i q)

/-- `assign_foci(points, radius, arena_size, max_x, min_x)` of
`n-points-line-random.py`. -/
noncomputable def assign_foci (points : List Pt) (radius : ℝ) (arena_size : ℕ)
    (max_x min_x : ℝ) : Bool × List Pt :=
  assign_go points radius arena_size max_x min_x points.length 0 points

lemma scan_point_none (ctx : List Pt) (i : ℕ) (base : Pt)
    (radius max_x min_x : ℝ) :
    ∀ xs : List ℝ, (∀ x ∈ xs, x > max_x ∨ x < min_x) →
      scan_point ctx i base radius max_x min_x xs = none := by
  intro xs
  induction xs with
  | nil => intro _; rfl
  | cons x rest ih =>
    intro hall
    rw [scan_point, if_pos (hall x (List.mem_cons_self x rest))]
    exact ih fun z hz => hall z (List.mem_cons_of_mem x hz)

lemma scan_xs_mem {b z : ℝ} {n : ℕ} (hz : z ∈ scan_xs b n) :
    ∃ d : ℕ, d < n ∧ (z = b + 1 * (d : ℝ) ∨ z = b + (-1) * (d : ℝ)) := by
  unfold scan_xs at hz
  simp only [List.mem_flatMap, List.mem_map, List.mem_range, sides,
    List.mem_cons, List.mem_singleton, List.not_mem_nil, or_false] at hz
  obtain ⟨d, hd, s, hs, hzs⟩ := hz
  rcases hs with rfl | rfl
  · exact ⟨d, hd, Or.inl hzs.symm⟩
  · exact ⟨d, hd, Or.inr hzs.symm⟩

lemma assign_go_false_snd (orig : List Pt) (radius : ℝ) (arena_size : ℕ)
    (max_x min_x : ℝ) :
    ∀ (fuel i : ℕ) (ctx out : List Pt),
      assign_go orig radius arena_size max_x min_x fuel i ctx = (false, out) →
      out = orig := by
  intro fuel
  induction fuel with
  | zero =>
    intro i ctx out h
    rw [assign_go] at h
    exact absurd (congrArg Prod.fst h) (by simp)
  | succ n ih =>
    intro i ctx out h
    rw [assign_go] at h
    rcases hscan : scan_point ctx i (ctx.getD i ⟨0, 0, 0, 0⟩) radius max_x min_x
        (scan_xs (ctx.getD i ⟨0, 0, 0, 0⟩).x arena_size) with _ | q
    · rw [hscan] at h
      simp only at h
      have h2 := congrArg Prod.snd h
      simpa using h2.symm
    · rw [hscan] at h
      simp only at h
      exact ih (i + 1) (ctx.set i q) out h

lemma c3_scan0 :
    LineRandom.scan_point [⟨0, 100, 7, 0⟩, ⟨100, 200, 0, 0⟩] 0 ⟨0, 100, 7, 0⟩
      5 2 (-2) (LineRandom.scan_xs (Pt.mk 0 100 7 0).x 10) = some ⟨0, 100, 0, 0⟩ := by
  have hxs : ∃ rest, LineRandom.scan_xs (Pt.mk 0 100 7 0).x 10 =
      ((Pt.mk 0 100 7 0).x + 1 * ((0 : ℕ) : ℝ)) ::
        ((Pt.mk 0 100 7 0).x + (-1) * ((0 : ℕ) : ℝ)) :: rest := by
    unfold LineRandom.scan_xs
    rw [show (10 : ℕ) = 9 + 1 from rfl, List.range_succ_eq_map]
    simp only [List.flatMap_cons, LineRandom.sides, List.map_cons, List.map_nil,
      List.cons_append, List.nil_append]
    exact ⟨_, rfl⟩
  obtain ⟨rest, hr⟩ := hxs
  rw [hr, LineRandom.scan_point]
  rw [if_neg (by norm_num)]
  simp only [List.set_cons_zero]
  norm_num
  rintro ⟨p2, hp2, hne, hnb, _⟩
  simp only [List.mem_cons, List.not_mem_nil, or_false] at hp2
  rcases hp2 with rfl | rfl
  · exact (hne rfl).elim
  · exact (hnb (by norm_num)).elim

lemma c3_scan1 :
    LineRandom.scan_point [(⟨0, 100, 0, 0⟩ : Pt), ⟨100, 200, 0, 0⟩] 1
      (Pt.mk 100 200 0 0) 5 2 (-2)
      (LineRandom.scan_xs (Pt.mk 100 200 0 0).x 10) = none := by
  apply LineRandom.scan_point_none
  intro z hz
  obtain ⟨d, hd, hcase⟩ := LineRandom.scan_xs_mem hz
  have hd9 : (d : ℝ) ≤ 9 := by exact_mod_cast Nat.lt_succ_iff.mp hd
  have hd0 : (0 : ℝ) ≤ (d : ℝ) := Nat.cast_nonneg d
  left
  rcases hcase with rfl | rfl
  · show (100 : ℝ) + 1 * (d : ℝ) > 2
    linarith
  · show (100 : ℝ) + (-1) * (d : ℝ) > 2
    linarith

lemma c3_eval :
    LineRandom.assign_foci [⟨0, 100, 7, 0⟩, ⟨100, 200, 0, 0⟩] 5 10 2 (-2) =
      (false, [⟨0, 100, 7, 0⟩, ⟨100, 200, 0, 0⟩]) := by
  show LineRandom.assign_go [⟨0, 100, 7, 0⟩, ⟨100, 200, 0, 0⟩] 5 10 2 (-2) 2 0
      [⟨0, 100, 7, 0⟩, ⟨100, 200, 0, 0⟩] = (false, [⟨0, 100, 7, 0⟩, ⟨100, 200, 0, 0⟩])
  rw [LineRandom.assign_go]
  simp only [List.getD_cons_zero]
  rw [c3_scan0]
  simp only [List.set_cons_zero]
  rw [LineRandom.assign_go]
  simp only [List.getD_cons_succ, List.getD_cons_zero]
  rw [c3_scan1]

/-- Claim C3, counterexample: on the two-point input below, the scan for
point 0 succeeds and commits a focus reassignment (new focus x `0`, original
focus x `7`), point 1's scan then fails, and `assign_foci` returns the
failure flag together with the ORIGINAL input points — the committed
reassignment of point 0 is NOT carried in the returned list. -/
theorem assign_foci_counterexample :
    LineRandom.scan_point [⟨0, 100, 7, 0⟩, ⟨100, 200, 0, 0⟩] 0 ⟨0, 100, 7, 0⟩
        5 2 (-2) (LineRandom.scan_xs (Pt.mk 0 100 7 0).x 10) =
      some ⟨0, 100, 0, 0⟩ ∧
    (Pt.mk 0 100 0 0).fx ≠ (Pt.mk 0 100 7 0).fx ∧
    LineRandom.assign_foci [⟨0, 100, 7, 0⟩, ⟨100, 200, 0, 0⟩] 5 10 2 (-2) =
      (false, [⟨0, 100, 7, 0⟩, ⟨100, 200, 0, 0⟩]) :=
  ⟨c3_scan0, by norm_num, c3_eval⟩

/-- Claim C3, amended: if the focus-assignment scan finds no accepted
offset/side for some point, `assign_foci` fails the entire configuration,
and the points returned alongside the failure flag are the ORIGINAL input
points, unchanged — earlier points' committed reassignments are discarded,
not returned. -/
theorem assign_foci_failure_returns_input
    (points : List Pt) (radius : ℝ) (arena_size : ℕ) (max_x min_x : ℝ)
    (h : (LineRandom.assign_foci points radius arena_size max_x min_x).1 = false) :
    (LineRandom.assign_foci points radius arena_size max_x min_x).2 = points := by
  unfold LineRandom.assign_foci at h ⊢
  have hpair : LineRandom.assign_go points radius arena_size max_x min_x
      points.length 0 points =
      (false, (LineRandom.assign_go points radius arena_size max_x min_x
        points.length 0 points).2) := by
    rw [← h]
  exact LineRandom.assign_go_false_snd points radius arena_size max_x min_x
    points.length 0 points _ hpair

/-- Witness for the amended C3 at the concrete failing input. -/
theorem assign_foci_failure_returns_input_witness :
    (LineRandom.assign_foci [⟨0, 100, 7, 0⟩, ⟨100, 200, 0, 0⟩] 5 10 2 (-2)).1 =
      false ∧
    (LineRandom.assign_foci [⟨0, 100, 7, 0⟩, ⟨100, 200, 0, 0⟩] 5 10 2 (-2)).2 =
      [⟨0, 100, 7, 0⟩, ⟨100, 200, 0, 0⟩] :=
  ⟨by rw [c3_eval], assign_foci_failure_returns_input _ _ _ _ _ (by rw [c3_eval])⟩

/-- `num_stacks = (arena_size - 3*radius) // radius` in `angled_init`. -/
def angled_num_stacks (arena_size radius : ℕ) : ℕ :=
  (arena_size - 3 * radius) / radius

/-- `num_per_stack = num_points // num_stacks` in `angled_init`. -/
def angled_num_per_stack (num_points arena_size radius : ℕ) : ℕ :=
  num_points / angled_num_stacks arena_size radius

/-- One inner (`for n in range(num_stacks)`) row of `angled_init`: each point
is `(curr_x + x_shift, curr_y, x_shift + x_per_stack - radius + 5, 0)` with
`x_shift = -arena_size + radius + n * x_per_stack`. -/
noncomputable def angled_row (num_stacks : ℕ)
    (arena_size radius x_per_stack cx cy : ℝ) : List Pt :=
  (List.range num_stacks).map fun n : ℕ =>
    ⟨cx + (-arena_size + radius + (n : ℝ) * x_per_stack), cy,
      (-arena_size + radius + (n : ℝ) * x_per_stack) + x_per_stack - radius + 5, 0⟩

/-- The outer (`for i in range(num_per_stack)`) loop of `angled_init`,
carrying `(i, angle, curr_x, curr_y)`; `u i` is the i-th `random.random()`
draw. -/
noncomputable def angled_loop (num_stacks : ℕ) (arena_size radius x_per_stack : ℝ)
    (u : ℕ → ℝ) : ℕ → ℕ → ℝ → ℝ → ℝ → List Pt
  | 0, _, _, _, _ => []
  | rows + 1, i, angle, cx, cy =>
    angled_row num_stacks arena_size radius x_per_stack cx cy ++
      (let angle2 := angle + u i * (3.14159 / 2 - angle)
       angled_loop num_stacks arena_size radius x_per_stack u rows (i + 1) angle2
         (cx + 2 * radius * Real.sin angle2) (cy + 2 * radius * Real.cos angle2))

/-- `angled_init(num_points, arena_size, radius)` of `n-points-line-random.py`
with injected randomness: `x_per_stack` stands for the
`randint(2*radius, num_per_stack*radius)` draw and `u` for the stream of
`random.random()` draws. -/
noncomputable def angled_init (num_points arena_size radius : ℕ)
    (x_per_stack : ℝ) (u : ℕ → ℝ) : List Pt :=
  angled_loop (angled_num_stacks arena_size radius) arena_size radius x_per_stack u
    (angled_num_per_stack num_points arena_size radius) 0 0 0 radius

/-- The successive `curr_y` row heights produced by the outer loop of
`angled_init`. -/
noncomputable def angled_ys (radius : ℝ) (u : ℕ → ℝ) : ℕ → ℕ → ℝ → ℝ → List ℝ
  | 0, _, _, _ => []
  | rows + 1, i, angle, cy =>
    cy :: (let angle2 := angle + u i * (3.14159 / 2 - angle)
           angled_ys radius u rows (i + 1) angle2
             (cy + 2 * radius * Real.cos angle2))

lemma angled_ys_succ (radius : ℝ) (u : ℕ → ℝ) (rows i : ℕ) (angle cy : ℝ) :
    LineRandom.angled_ys radius u (rows + 1) i angle cy =
      cy :: LineRandom.angled_ys radius u rows (i + 1)
        (angle + u i * (3.14159 / 2 - angle))
        (cy + 2 * radius * Real.cos (angle + u i * (3.14159 / 2 - angle))) := rfl

lemma angled_ys_zero (radius : ℝ) (u : ℕ → ℝ) (i : ℕ) (angle cy : ℝ) :
    LineRandom.angled_ys radius u 0 i angle cy = [] := rfl

lemma angled_row_map_y (ns : ℕ) (a r xps cx cy : ℝ) :
    (LineRandom.angled_row ns a r xps cx cy).map Pt.y = List.replicate ns cy := by
  unfold LineRandom.angled_row
  rw [List.map_map]
  have hcomp : (Pt.y ∘ fun n : ℕ =>
      (⟨cx + (-a + r + (n : ℝ) * xps), cy,
        (-a + r + (n : ℝ) * xps) + xps - r + 5, 0⟩ : Pt)) = fun _ => cy := rfl
  rw [hcomp]
  induction ns with
  | zero => rfl
  | succ m ih =>
    rw [List.range_succ, List.map_append, ih, List.replicate_succ']
    rfl

lemma angled_loop_map_y (ns : ℕ) (a r xps : ℝ) (u : ℕ → ℝ) :
    ∀ (rows i : ℕ) (angle cx cy : ℝ),
      (LineRandom.angled_loop ns a r xps u rows i angle cx cy).map Pt.y =
        (LineRandom.angled_ys r u rows i angle cy).flatMap
          (fun c => List.replicate ns c) := by
  intro rows
  induction rows with
  | zero => intro i angle cx cy; rfl
  | succ n ih =>
    intro i angle cx cy
    rw [LineRandom.angled_loop, angled_ys_succ]
    simp only [List.map_append, List.flatMap_cons]
    rw [angled_row_map_y, ih]

lemma half_pi_bound : (3.14159 : ℝ) / 2 < Real.pi / 2 := by
  have h := Real.pi_gt_3141592
  linarith

lemma angled_angle_step {angle ui : ℝ} (h0 : 0 ≤ angle)
    (h1 : angle < 3.14159 / 2) (hu0 : 0 ≤ ui) (hu1 : ui < 1) :
    0 ≤ angle + ui * (3.14159 / 2 - angle) ∧
      angle + ui * (3.14159 / 2 - angle) < 3.14159 / 2 := by
  constructor
  · nlinarith
  · nlinarith

lemma angled_cos_pos {t : ℝ} (h0 : 0 ≤ t) (h1 : t < 3.14159 / 2) :
    0 < Real.cos t := by
  apply Real.cos_pos_of_mem_Ioo
  constructor
  · have hpi : 0 < Real.pi := Real.pi_pos
    linarith
  · linarith [half_pi_bound]

lemma angled_ys_chain (radius : ℝ) (hr : 0 < radius) (u : ℕ → ℝ)
    (hu : ∀ i, 0 ≤ u i ∧ u i < 1) :
    ∀ (rows i : ℕ) (angle cy : ℝ), 0 ≤ angle → angle < 3.14159 / 2 →
      List.Chain' (fun s t => s < t)
        (LineRandom.angled_ys radius u rows i angle cy) := by
  intro rows
  induction rows with
  | zero =>
    intro i angle cy _ _
    rw [angled_ys_zero]
    exact List.chain'_nil
  | succ n ih =>
    intro i angle cy h0 h1
    rw [angled_ys_succ]
    obtain ⟨h0', h1'⟩ := angled_angle_step h0 h1 (hu i).1 (hu i).2
    apply List.chain'_cons'.mpr
    refine ⟨?_, ih (i + 1) _ _ h0' h1'⟩
    intro b hb
    cases n with
    | zero => rw [angled_ys_zero] at hb; simp at hb
    | succ m =>
      rw [angled_ys_succ] at hb
      simp only [List.head?_cons, Option.mem_some_iff] at hb
      subst hb
      nlinarith [angled_cos_pos h0' h1', hr]

/-- Claim C7: with `numPoints = 20`, `radius = 100`, `arenaSize = 800`, the
angled-stack generator computes `numStacks = (800 - 300) // 100 = 5` and
`numPerStack = 20 // 5 = 4`, and (before periodicity enforcement) produces
exactly 20 points whose y-values form 4 strictly increasing row values with
exactly 5 points sharing each, for every value of the injected random
source. -/
theorem angled_init_stack_structure (x_per_stack : ℝ) (u : ℕ → ℝ)
    (hu : ∀ i, 0 ≤ u i ∧ u i < 1) :
    LineRandom.angled_num_stacks 800 100 = 5 ∧
    LineRandom.angled_num_per_stack 20 800 100 = 4 ∧
    (LineRandom.angled_init 20 800 100 x_per_stack u).length = 20 ∧
    ∃ y0 y1 y2 y3 : ℝ, y0 < y1 ∧ y1 < y2 ∧ y2 < y3 ∧
      (LineRandom.angled_init 20 800 100 x_per_stack u).map Pt.y =
        List.replicate 5 y0 ++ List.replicate 5 y1 ++
          List.replicate 5 y2 ++ List.replicate 5 y3 := by
  have hinit : LineRandom.angled_init 20 800 100 x_per_stack u =
      LineRandom.angled_loop 5 800 100 x_per_stack u 4 0 0 0 100 := by
    unfold LineRandom.angled_init LineRandom.angled_num_per_stack
    norm_num [LineRandom.angled_num_stacks]
  have hmap := angled_loop_map_y 5 800 100 x_per_stack u 4 0 0 0 100
  have hchain := angled_ys_chain 100 (by norm_num) u hu 4 0 0 100 le_rfl (by norm_num)
  rw [angled_ys_succ, angled_ys_succ, angled_ys_succ, angled_ys_succ,
    angled_ys_zero] at hmap hchain
  simp only [List.chain'_cons, List.chain'_singleton, and_true] at hchain
  have hlen : (LineRandom.angled_init 20 800 100 x_per_stack u).length = 20 := by
    have h2 := congrArg List.length hmap
    rw [List.length_map] at h2
    rw [hinit, h2]
    simp [List.flatMap_cons, List.flatMap_nil]
  refine ⟨rfl, rfl, hlen, _, _, _, _, hchain.1, hchain.2.1, hchain.2.2, ?_⟩
  rw [hinit, hmap]
  simp [List.flatMap_cons, List.flatMap_nil]

/-- Witness for C7 with the all-zeros random stream and `x_per_stack = 300`. -/
theorem angled_init_stack_structure_witness :
    ((0 : ℝ) ≤ 0 ∧ (0 : ℝ) < 1) ∧
    LineRandom.angled_num_stacks 800 100 = 5 ∧
    LineRandom.angled_num_per_stack 20 800 100 = 4 ∧
    (LineRandom.angled_init 20 800 100 300 (fun _ => 0)).length = 20 := by
  have h := angled_init_stack_structure 300 (fun _ => 0)
    (fun i => ⟨le_rfl, by norm_num⟩)
  exact ⟨⟨le_rfl, by norm_num⟩, h.1, h.2.1, h.2.2.1⟩

end LineRandom

namespace Trials

/-- The `for j,p in enumerate(points)` repulsion accumulation inside
`sum_forces`: every other point within `repulse_d * radius` contributes
`repulse * (offset/radius)` per component. -/
noncomputable def repulsion_sum (px py rs rd radius : ℝ) (iv : ℕ) :
    ℕ → List Pt → ℝ × ℝ
  | _, [] => (0, 0)
  | j, q :: rest =>
    let rest_sum := repulsion_sum px py rs rd radius iv (j + 1) rest
    if j = iv then rest_sum
    else
      let distance := Real.sqrt ((px - q.x) ^ 2 + (py - q.y) ^ 2)
      if |distance| < rd * |radius| then
        (rest_sum.1 + rs * (px - q.x) / radius,
         rest_sum.2 + rs * (py - q.y) / radius)
      else rest_sum

/-- `sum_forces(i, points, repulse, repulse_d, radius)` of
`n-points-trials.py`: unit attraction toward the focus plus the repulsion
sum. -/
noncomputable def sum_forces (points : List Pt) (i : Fin points.length)
    (repulse repulse_d radius : ℝ) : ℝ × ℝ :=
  let p := points.get i
  let distance_to_focus := Real.sqrt ((p.x - p.fx) ^ 2 + (p.y - p.fy) ^ 2)
  let central : ℝ × ℝ :=
    ((p.fx - p.x) / distance_to_focus, (p.fy - p.y) / distance_to_focus)
  let r_force := repulsion_sum p.x p.y repulse repulse_d radius (i : ℕ) 0 points
  (central.1 + r_force.1, central.2 + r_force.2)

/-- The tentative move of point `i` computed in the dynamics loop:
`p + magnitude * f / |f|` (forces always computed from the pre-step list),
foci untouched. -/
noncomputable def moved_point (points : List Pt) (i : Fin points.length)
    (repulse repulse_d radius magnitude : ℝ) : Pt :=
  let p := points.get i
  let f := sum_forces points i repulse repulse_d radius
  let norm := Real.sqrt (f.1 ^ 2 + f.2 ^ 2)
  ⟨p.x + magnitude * f.1 / norm, p.y + magnitude * f.2 / norm, p.fx, p.fy⟩

/-- One iteration of `for i,p in enumerate(points)` inside `dynamics`:
tentatively move point `i` inside the working list `acc`; if the whole
resulting configuration is in violation, revert point `i` (and only point
`i`) to its pre-step row. -/
noncomputable def dynamics_update (points : List Pt)
    (repulse repulse_d radius magnitude arena_size : ℝ)
    (acc : List Pt) (i : ℕ) : List Pt :=
  if h : i < points.length then
    let t := moved_point points ⟨i, h⟩ repulse repulse_d radius magnitude
    let tentative := acc.set i t
    if in_violation_full tentative radius arena_size then
      acc.set i (points.get ⟨i, h⟩)
    else tentative
  else acc

/-- One full step of the dynamics loop: process every index in order on the
working copy `new_points` (started as a copy of `points`). -/
noncomputable def dynamics_step (points : List Pt)
    (repulse repulse_d radius magnitude arena_size : ℝ) : List Pt :=
  (List.range points.length).foldl
    (dynamics_update points repulse repulse_d radius magnitude arena_size) points

/-- The dynamics loop iterated for a number of steps, with the per-step
annealed parameters supplied as `sched s = (repulse, repulse_d, magnitude)`. -/
noncomputable def dynamics_iter (radius arena_size : ℝ)
    (sched : ℕ → ℝ × ℝ × ℝ) : ℕ → List Pt → List Pt
  | 0, points => points
  | n + 1, points =>
    dynamics_step (dynamics_iter radius arena_size sched n points)
      (sched n).1 (sched n).2.1 radius (sched n).2.2 arena_size

/-- `random_init_uniform(num_points, arena_size, radius)` of
`n-points-trials.py` with the `randint` draws injected as `rnd`:
every focus is `(0, 0)`. -/
def random_init_uniform (num_points : ℕ) (rnd : ℕ → ℤ × ℤ) : List Pt :=
  (List.range num_points).map fun j : ℕ =>
    ⟨((rnd j).1 : ℝ), ((rnd j).2 : ℝ), 0, 0⟩

end Trials

lemma map_range_const {β : Type} (n : ℕ) (c : β) :
    (List.range n).map (fun _ => c) = List.replicate n c := by
  induction n with
  | zero => rfl
  | succ m ih =>
    rw [List.range_succ, List.map_append, ih, List.replicate_succ']
    rfl

lemma set_get_self {α : Type} (l : List α) (i : ℕ) (h : i < l.length) :
    l.set i (l.get ⟨i, h⟩) = l := by
  apply List.ext_getElem
  · simp
  · intro n h1 h2
    simp only [List.getElem_set]
    split
    · rename_i heq
      subst heq
      rfl
    · rfl

lemma moved_point_fx (points : List Pt) (i : Fin points.length)
    (rs rd r mag : ℝ) :
    (Trials.moved_point points i rs rd r mag).fx = (points.get i).fx := rfl

lemma moved_point_fy (points : List Pt) (i : Fin points.length)
    (rs rd r mag : ℝ) :
    (Trials.moved_point points i rs rd r mag).fy = (points.get i).fy := rfl

lemma dynamics_update_map_foci (points : List Pt) (rs rd r mag a : ℝ)
    (acc : List Pt) (i : ℕ)
    (hacc : acc.map (fun p => (p.fx, p.fy)) =
      points.map (fun p => (p.fx, p.fy))) :
    (Trials.dynamics_update points rs rd r mag a acc i).map
        (fun p => (p.fx, p.fy)) =
      points.map (fun p => (p.fx, p.fy)) := by
  unfold Trials.dynamics_update
  split
  · rename_i h
    have hset : ∀ q : Pt,
        q.fx = (points.get ⟨i, h⟩).fx → q.fy = (points.get ⟨i, h⟩).fy →
        (acc.set i q).map (fun p => (p.fx, p.fy)) =
          points.map (fun p => (p.fx, p.fy)) := by
      intro q hqx hqy
      rw [List.map_set, hacc, hqx, hqy]
      have hget : ((points.get ⟨i, h⟩).fx, (points.get ⟨i, h⟩).fy) =
          (points.map (fun p => (p.fx, p.fy))).get
            ⟨i, by rw [List.length_map]; exact h⟩ := by
        rw [List.get_map]
      rw [hget, set_get_self]
    show List.map (fun p => (p.fx, p.fy))
        (if Trials.in_violation_full
            (acc.set i (Trials.moved_point points ⟨i, h⟩ rs rd r mag)) r a
          then acc.set i (points.get ⟨i, h⟩)
          else acc.set i (Trials.moved_point points ⟨i, h⟩ rs rd r mag)) =
      List.map (fun p => (p.fx, p.fy)) points
    split
    · exact hset _ rfl rfl
    · exact hset _ (moved_point_fx points ⟨i, h⟩ rs rd r mag)
        (moved_point_fy points ⟨i, h⟩ rs rd r mag)
  · exact hacc

lemma dynamics_foldl_map_foci (points : List Pt) (rs rd r mag a : ℝ) :
    ∀ (l : List ℕ) (acc : List Pt),
      acc.map (fun p => (p.fx, p.fy)) = points.map (fun p => (p.fx, p.fy)) →
      (l.foldl (Trials.dynamics_update points rs rd r mag a) acc).map
          (fun p => (p.fx, p.fy)) =
        points.map (fun p => (p.fx, p.fy)) := by
  intro l
  induction l with
  | nil => intro acc hacc; exact hacc
  | cons x rest ih =>
    intro acc hacc
    rw [List.foldl_cons]
    exact ih _ (dynamics_update_map_foci points rs rd r mag a acc x hacc)

lemma dynamics_step_map_foci (points : List Pt) (rs rd r mag a : ℝ) :
    (Trials.dynamics_step points rs rd r mag a).map (fun p => (p.fx, p.fy)) =
      points.map (fun p => (p.fx, p.fy)) :=
  dynamics_foldl_map_foci points rs rd r mag a _ points rfl

/-- Claim C9: the relaxation position update only moves `(x, y)`: the foci
of all points are unchanged by every step of the relaxation loop, and for a
trial started from `random_init_uniform` they stay the `(0, 0)` the
initializer assigned, for any number of steps and any annealing schedule. -/
theorem dynamics_preserves_foci :
    (∀ (points : List Pt) (rs rd r mag a : ℝ),
        (Trials.dynamics_step points rs rd r mag a).map (fun p => (p.fx, p.fy)) =
          points.map (fun p => (p.fx, p.fy))) ∧
    (∀ (n : ℕ) (rnd : ℕ → ℤ × ℤ) (r a : ℝ) (sched : ℕ → ℝ × ℝ × ℝ) (steps : ℕ),
        (Trials.dynamics_iter r a sched steps
            (Trials.random_init_uniform n rnd)).map (fun p => (p.fx, p.fy)) =
          List.replicate n ((0 : ℝ), (0 : ℝ))) := by
  refine ⟨fun points rs rd r mag a => dynamics_step_map_foci points rs rd r mag a, ?_⟩
  intro n rnd r a sched steps
  induction steps with
  | zero =>
    show (Trials.random_init_uniform n rnd).map (fun p => (p.fx, p.fy)) = _
    unfold Trials.random_init_uniform
    rw [List.map_map]
    exact map_range_const n ((0 : ℝ), (0 : ℝ))
  | succ m ih =>
    show (Trials.dynamics_step (Trials.dynamics_iter r a sched m _) _ _ _ _ _).map
        (fun p => (p.fx, p.fy)) = _
    rw [dynamics_step_map_foci, ih]

/-- The concrete two-point configuration used to exercise the dynamics
step: point 0 close to the origin disk, point 1 far away, foci `(0,0)`. -/
noncomputable def c1cfg : List Pt := [⟨150, 200, 0, 0⟩, ⟨-3000, -4000, 0, 0⟩]

lemma c1_len0 : 0 < c1cfg.length := by norm_num [c1cfg]

lemma c1_len1 : 1 < c1cfg.length := by norm_num [c1cfg]

lemma sqrt27562500 : Real.sqrt (27562500 : ℝ) = 5250 :=
  sqrt_eq_of_sq (by norm_num) (by norm_num)

lemma abs5250 : |(5250 : ℝ)| = 5250 := abs_of_nonneg (by norm_num)

lemma abs200 : |(200 : ℝ)| = 200 := abs_of_nonneg (by norm_num)

lemma c1_rep0 :
    Trials.repulsion_sum 150 200 50 2.1 200 0 0 c1cfg = (0, 0) := by
  simp only [c1cfg, Trials.repulsion_sum]
  norm_num [sqrt27562500, abs5250, abs200]

lemma c1_rep1 :
    Trials.repulsion_sum (-3000) (-4000) 50 2.1 200 1 0 c1cfg = (0, 0) := by
  simp only [c1cfg, Trials.repulsion_sum]
  norm_num [sqrt27562500, abs5250, abs200]

lemma sqrt62500 : Real.sqrt (62500 : ℝ) = 250 :=
  sqrt_eq_of_sq (by norm_num) (by norm_num)

lemma sqrt25000000 : Real.sqrt (25000000 : ℝ) = 5000 :=
  sqrt_eq_of_sq (by norm_num) (by norm_num)

lemma c1_rep0n :
    Trials.repulsion_sum 150 200 50 (21 / 10) 200 0 0 c1cfg = (0, 0) := by
  rw [show (21 / 10 : ℝ) = 2.1 by norm_num]
  exact c1_rep0

lemma c1_rep1n :
    Trials.repulsion_sum (-3000) (-4000) 50 (21 / 10) 200 1 0 c1cfg = (0, 0) := by
  rw [show (21 / 10 : ℝ) = 2.1 by norm_num]
  exact c1_rep1

lemma c1_sf0 (h : 0 < c1cfg.length) :
    Trials.sum_forces c1cfg ⟨0, h⟩ 50 2.1 200 = (-(3/5), -(4/5)) := by
  unfold Trials.sum_forces
  have hget : c1cfg.get ⟨0, h⟩ = ⟨150, 200, 0, 0⟩ := rfl
  rw [hget]
  norm_num [sqrt62500, c1_rep0n]

lemma c1_sf1 (h : 1 < c1cfg.length) :
    Trials.sum_forces c1cfg ⟨1, h⟩ 50 2.1 200 = (3/5, 4/5) := by
  unfold Trials.sum_forces
  have hget : c1cfg.get ⟨1, h⟩ = ⟨-3000, -4000, 0, 0⟩ := rfl
  rw [hget]
  norm_num [sqrt25000000, c1_rep1n]

lemma c1_mv0 (h : 0 < c1cfg.length) :
    Trials.moved_point c1cfg ⟨0, h⟩ 50 2.1 200 200 = ⟨30, 40, 0, 0⟩ := by
  unfold Trials.moved_point
  rw [c1_sf0 h]
  have hget : c1cfg.get ⟨0, h⟩ = ⟨150, 200, 0, 0⟩ := rfl
  rw [hget]
  have hn : Real.sqrt ((-(3/5 : ℝ)) ^ 2 + (-(4/5 : ℝ)) ^ 2) = 1 := by
    rw [show (-(3/5 : ℝ)) ^ 2 + (-(4/5 : ℝ)) ^ 2 = 1 by norm_num]
    exact Real.sqrt_one
  rw [Pt.ext_iff2]
  norm_num [hn]

lemma c1_mv1 (h : 1 < c1cfg.length) :
    Trials.moved_point c1cfg ⟨1, h⟩ 50 2.1 200 200 = ⟨-2880, -3840, 0, 0⟩ := by
  unfold Trials.moved_point
  rw [c1_sf1 h]
  have hget : c1cfg.get ⟨1, h⟩ = ⟨-3000, -4000, 0, 0⟩ := rfl
  rw [hget]
  have hn : Real.sqrt ((3/5 : ℝ) ^ 2 + (4/5 : ℝ) ^ 2) = 1 := by
    rw [show (3/5 : ℝ) ^ 2 + (4/5 : ℝ) ^ 2 = 1 by norm_num]
    exact Real.sqrt_one
  rw [Pt.ext_iff2]
  norm_num [hn]

lemma c1_tent0_viol :
    Trials.in_violation_full (c1cfg.set 0 ⟨30, 40, 0, 0⟩) 200 1600 := by
  refine Or.inr (Or.inr (Or.inl ⟨⟨30, 40, 0, 0⟩, ?_, by norm_num⟩))
  simp [c1cfg]

lemma c1_allmoved_viol :
    Trials.in_violation_full [(⟨30, 40, 0, 0⟩ : Pt), ⟨-2880, -3840, 0, 0⟩]
      200 1600 := by
  refine Or.inr (Or.inr (Or.inl ⟨⟨30, 40, 0, 0⟩, ?_, by norm_num⟩))
  simp

lemma c1_res_ok :
    ¬ Trials.in_violation_full [(⟨150, 200, 0, 0⟩ : Pt), ⟨-2880, -3840, 0, 0⟩]
      200 1600 := by
  rintro (h | h | h | h)
  · obtain ⟨i, j, hij, hx, hy⟩ := h
    fin_cases i <;> fin_cases j <;> simp_all <;> norm_num at hx
  · obtain ⟨i, j, hij, hd⟩ := h
    fin_cases i <;> fin_cases j <;> simp_all <;> norm_num at hd
  · obtain ⟨p, hp, hlt⟩ := h
    simp only [List.mem_cons, List.not_mem_nil, or_false] at hp
    rcases hp with rfl | rfl <;> norm_num at hlt
  · obtain ⟨p, hp, hb⟩ := h
    simp only [List.mem_cons, List.not_mem_nil, or_false] at hp
    obtain ⟨p2, hp2, hne, hnb, _⟩ := hb
    simp only [List.mem_cons, List.not_mem_nil, or_false] at hp2
    rcases hp with rfl | rfl <;> rcases hp2 with rfl | rfl
    · exact hne rfl
    · exact hnb (Or.inl (by norm_num))
    · exact hnb (Or.inr ⟨by norm_num, by norm_num⟩)
    · exact hne rfl

lemma c1_upd0 :
    Trials.dynamics_update c1cfg 50 2.1 200 200 1600 c1cfg 0 = c1cfg := by
  unfold Trials.dynamics_update
  rw [dif_pos c1_len0]
  show (if Trials.in_violation_full
        (c1cfg.set 0 (Trials.moved_point c1cfg ⟨0, c1_len0⟩ 50 2.1 200 200))
        200 1600
      then c1cfg.set 0 (c1cfg.get ⟨0, c1_len0⟩)
      else c1cfg.set 0 (Trials.moved_point c1cfg ⟨0, c1_len0⟩ 50 2.1 200 200)) =
    c1cfg
  rw [c1_mv0 c1_len0, if_pos c1_tent0_viol]
  exact set_get_self c1cfg 0 c1_len0

lemma c1_upd1 :
    Trials.dynamics_update c1cfg 50 2.1 200 200 1600 c1cfg 1 =
      [⟨150, 200, 0, 0⟩, ⟨-2880, -3840, 0, 0⟩] := by
  unfold Trials.dynamics_update
  rw [dif_pos c1_len1]
  show (if Trials.in_violation_full
        (c1cfg.set 1 (Trials.moved_point c1cfg ⟨1, c1_len1⟩ 50 2.1 200 200))
        200 1600
      then c1cfg.set 1 (c1cfg.get ⟨1, c1_len1⟩)
      else c1cfg.set 1 (Trials.moved_point c1cfg ⟨1, c1_len1⟩ 50 2.1 200 200)) =
    [⟨150, 200, 0, 0⟩, ⟨-2880, -3840, 0, 0⟩]
  rw [c1_mv1 c1_len1]
  have hset : c1cfg.set 1 (⟨-2880, -3840, 0, 0⟩ : Pt) =
      [⟨150, 200, 0, 0⟩, ⟨-2880, -3840, 0, 0⟩] := by simp [c1cfg]
  rw [hset, if_neg c1_res_ok]

lemma c1_step_eval :
    Trials.dynamics_step c1cfg 50 2.1 200 200 1600 =
      [⟨150, 200, 0, 0⟩, ⟨-2880, -3840, 0, 0⟩] := by
  unfold Trials.dynamics_step
  rw [show List.range c1cfg.length = [0, 1] from rfl]
  rw [List.foldl_cons, c1_upd0, List.foldl_cons, c1_upd1, List.foldl_nil]

/-- Claim C1, counterexample: in the dynamics step on `c1cfg` (defaults
`repulse = 50`, `repulse_d = 2.1`, `radius = 200`, step magnitude 200),
the tentative configuration fails validation — both the working
configuration containing point 0's move and the configuration with all
points moved are invalid — yet the step's result is NOT the pre-step
configuration: point 0 is rolled back but point 1's accepted move
persists, so the rollback is not global. -/
theorem dynamics_step_rollback_counterexample :
    Trials.in_violation_full
        (c1cfg.set 0 (Trials.moved_point c1cfg ⟨0, c1_len0⟩ 50 2.1 200 200))
        200 1600 ∧
    Trials.in_violation_full
        [Trials.moved_point c1cfg ⟨0, c1_len0⟩ 50 2.1 200 200,
         Trials.moved_point c1cfg ⟨1, c1_len1⟩ 50 2.1 200 200] 200 1600 ∧
    Trials.dynamics_step c1cfg 50 2.1 200 200 1600 =
      [⟨150, 200, 0, 0⟩, ⟨-2880, -3840, 0, 0⟩] ∧
    Trials.dynamics_step c1cfg 50 2.1 200 200 1600 ≠ c1cfg := by
  refine ⟨?_, ?_, c1_step_eval, ?_⟩
  · rw [c1_mv0 c1_len0]
    exact c1_tent0_viol
  · rw [c1_mv0 c1_len0, c1_mv1 c1_len1]
    exact c1_allmoved_viol
  · rw [c1_step_eval]
    intro hcontra
    rw [c1cfg] at hcontra
    simp only [List.cons.injEq, Pt.mk.injEq] at hcontra
    norm_num at hcontra

/-- Claim C1, amended: the rollback is per-point, not global.  In each step
the points are processed sequentially on a working list; when the
configuration holding point `i`'s tentative move is invalid, point `i`
alone reverts to its pre-step row (the working list is left as it was),
when it is valid the move is committed, and in either case the entries at
all other indices are untouched by the processing of index `i`. -/
theorem dynamics_update_per_point_rollback
    (points acc : List Pt) (rs rd r mag a : ℝ) (i : ℕ)
    (h : i < points.length) :
    (Trials.in_violation_full
        (acc.set i (Trials.moved_point points ⟨i, h⟩ rs rd r mag)) r a →
      Trials.dynamics_update points rs rd r mag a acc i =
        acc.set i (points.get ⟨i, h⟩)) ∧
    (¬ Trials.in_violation_full
        (acc.set i (Trials.moved_point points ⟨i, h⟩ rs rd r mag)) r a →
      Trials.dynamics_update points rs rd r mag a acc i =
        acc.set i (Trials.moved_point points ⟨i, h⟩ rs rd r mag)) ∧
    (∀ j : ℕ, j ≠ i →
      (Trials.dynamics_update points rs rd r mag a acc i)[j]? = acc[j]?) := by
  have hupd : Trials.dynamics_update points rs rd r mag a acc i =
      if Trials.in_violation_full
          (acc.set i (Trials.moved_point points ⟨i, h⟩ rs rd r mag)) r a
        then acc.set i (points.get ⟨i, h⟩)
        else acc.set i (Trials.moved_point points ⟨i, h⟩ rs rd r mag) := by
    unfold Trials.dynamics_update
    rw [dif_pos h]
  refine ⟨fun hv => by rw [hupd, if_pos hv],
    fun hv => by rw [hupd, if_neg hv], ?_⟩
  intro j hj
  rw [hupd]
  split
  · exact List.getElem?_set_ne (fun he => hj he.symm)
  · exact List.getElem?_set_ne (fun he => hj he.symm)

/-- Witness for the amended C1: at `c1cfg`, index 0's tentative move is
invalid and the update leaves the working list with point 0 reverted. -/
theorem dynamics_update_per_point_rollback_witness :
    Trials.dynamics_update c1cfg 50 2.1 200 200 1600 c1cfg 0 =
      c1cfg.set 0 (c1cfg.get ⟨0, c1_len0⟩) :=
  (dynamics_update_per_point_rollback c1cfg c1cfg 50 2.1 200 200 1600 0
      c1_len0).1
    (by rw [c1_mv0 c1_len0]; exact c1_tent0_viol)

/-- A valid two-point configuration (with `repulse = 0.25`,
`repulse_d = 30`, `radius = 200`) in which the attraction on point 0 is
cancelled exactly by the repulsion from point 1. -/
noncomputable def c10cfg : List Pt := [⟨300, 400, 0, 0⟩, ⟨-180, -240, 0, 0⟩]

lemma c10_len0 : 0 < c10cfg.length := by norm_num [c10cfg]

lemma sqrt640000 : Real.sqrt (640000 : ℝ) = 800 :=
  sqrt_eq_of_sq (by norm_num) (by norm_num)

lemma sqrt250000 : Real.sqrt (250000 : ℝ) = 500 :=
  sqrt_eq_of_sq (by norm_num) (by norm_num)

lemma abs800 : |(800 : ℝ)| = 800 := abs_of_nonneg (by norm_num)

lemma c10_rep0 :
    Trials.repulsion_sum 300 400 (1 / 4) 30 200 0 0 c10cfg = (3/5, 4/5) := by
  simp only [c10cfg, Trials.repulsion_sum]
  norm_num [sqrt640000, abs800, abs200]

lemma c10_sf0 (h : 0 < c10cfg.length) :
    Trials.sum_forces c10cfg ⟨0, h⟩ 0.25 30 200 = (0, 0) := by
  unfold Trials.sum_forces
  have hget : c10cfg.get ⟨0, h⟩ = ⟨300, 400, 0, 0⟩ := rfl
  rw [hget]
  norm_num [sqrt250000, c10_rep0]

lemma c10_valid : ¬ Trials.in_violation_full c10cfg 200 6000 := by
  rintro (h | h | h | h)
  · obtain ⟨i, j, hij, hx, hy⟩ := h
    fin_cases i <;> fin_cases j <;> simp_all [c10cfg] <;> norm_num at hx
  · obtain ⟨i, j, hij, hd⟩ := h
    fin_cases i <;> fin_cases j <;> simp_all [c10cfg] <;> norm_num at hd
  · obtain ⟨p, hp, hlt⟩ := h
    simp only [c10cfg, List.mem_cons, List.not_mem_nil, or_false] at hp
    rcases hp with rfl | rfl <;> norm_num at hlt
  · obtain ⟨p, hp, hb⟩ := h
    simp only [c10cfg, List.mem_cons, List.not_mem_nil, or_false] at hp
    obtain ⟨p2, hp2, hne, hnb, _⟩ := hb
    simp only [c10cfg, List.mem_cons, List.not_mem_nil, or_false] at hp2
    rcases hp with rfl | rfl <;> rcases hp2 with rfl | rfl
    · exact hne rfl
    · exact hnb (Or.inr ⟨by norm_num, by norm_num⟩)
    · exact hnb (Or.inl (by norm_num))
    · exact hne rfl

/-- Claim C10: the relaxation position update divides by the Euclidean norm
of the net force with no zero guard.  At the valid configuration `c10cfg`
(accepted by the per-step validator, so no rollback intervenes) the force
on point 0 cancels exactly: the net force is `(0, 0)` and the norm used as
the update's divisor is `0`, so the division is by zero; conversely the
divisor is nonzero exactly under the precondition that the net force is
nonzero. -/
theorem sum_forces_zero_divisor_reachable :
    ¬ Trials.in_violation_full c10cfg 200 6000 ∧
    Trials.sum_forces c10cfg ⟨0, c10_len0⟩ 0.25 30 200 = (0, 0) ∧
    Real.sqrt ((Trials.sum_forces c10cfg ⟨0, c10_len0⟩ 0.25 30 200).1 ^ 2 +
      (Trials.sum_forces c10cfg ⟨0, c10_len0⟩ 0.25 30 200).2 ^ 2) = 0 ∧
    (∀ (points : List Pt) (i : Fin points.length) (rs rd r : ℝ),
      Trials.sum_forces points i rs rd r ≠ (0, 0) →
      0 < Real.sqrt ((Trials.sum_forces points i rs rd r).1 ^ 2 +
        (Trials.sum_forces points i rs rd r).2 ^ 2)) := by
  refine ⟨c10_valid, c10_sf0 c10_len0, ?_, ?_⟩
  · rw [c10_sf0 c10_len0]
    norm_num
  · intro points i rs rd r hne
    apply Real.sqrt_pos.mpr
    by_contra hle
    push_neg at hle
    have h1 : (Trials.sum_forces points i rs rd r).1 = 0 := by
      nlinarith [sq_nonneg (Trials.sum_forces points i rs rd r).1,
        sq_nonneg (Trials.sum_forces points i rs rd r).2]
    have h2 : (Trials.sum_forces points i rs rd r).2 = 0 := by
      nlinarith [sq_nonneg (Trials.sum_forces points i rs rd r).1,
        sq_nonneg (Trials.sum_forces points i rs rd r).2]
    exact hne (Prod.ext h1 h2)

/-- Witness for C10's nonzero-force conjunct at a singleton configuration
with nonzero net force. -/
theorem sum_forces_zero_divisor_reachable_witness :
    Trials.sum_forces [(⟨0, 3, 0, 0⟩ : Pt)] ⟨0, Nat.one_pos⟩ 1 1 1 ≠ (0, 0) ∧
    0 < Real.sqrt
      ((Trials.sum_forces [(⟨0, 3, 0, 0⟩ : Pt)] ⟨0, Nat.one_pos⟩ 1 1 1).1 ^ 2 +
       (Trials.sum_forces [(⟨0, 3, 0, 0⟩ : Pt)] ⟨0, Nat.one_pos⟩ 1 1 1).2 ^ 2) := by
  have hsf : Trials.sum_forces [(⟨0, 3, 0, 0⟩ : Pt)] ⟨0, Nat.one_pos⟩ 1 1 1 =
      (0, -1) := by
    unfold Trials.sum_forces
    have hget : ([(⟨0, 3, 0, 0⟩ : Pt)]).get ⟨0, Nat.one_pos⟩ = ⟨0, 3, 0, 0⟩ := rfl
    rw [hget]
    have h9 : Real.sqrt (9 : ℝ) = 3 := sqrt_eq_of_sq (by norm_num) (by norm_num)
    simp only [Trials.repulsion_sum]
    norm_num [h9]
  have hne : Trials.sum_forces [(⟨0, 3, 0, 0⟩ : Pt)] ⟨0, Nat.one_pos⟩ 1 1 1 ≠
      (0, 0) := by
    rw [hsf]
    intro hcontra
    simp only [Prod.mk.injEq] at hcontra
    norm_num at hcontra
  exact ⟨hne, sum_forces_zero_divisor_reachable.2.2.2 _ _ _ _ _ hne⟩

/-- Two stacked points on the y-axis: point 1 sits exactly on point 0's
line of sight to its focus at the origin. -/
noncomputable def c2cfg : List Pt := [⟨0, 700, 0, 0⟩, ⟨0, 300, 0, 0⟩]

lemma c2_dist : closest_distance_to_line 70001 700 0 300 < 200 := by
  unfold closest_distance_to_line
  apply (Real.sqrt_lt' (by norm_num : (0:ℝ) < 200)).mpr
  norm_num

lemma c2_blocked : Trials.is_blocked ⟨0, 700, 0, 0⟩ c2cfg 200 := by
  unfold Trials.is_blocked
  refine ⟨⟨0, 300, 0, 0⟩, by simp [c2cfg], ?_, ?_, ?_⟩
  · intro hcontra
    rw [Pt.ext_iff2] at hcontra
    norm_num at hcontra
  · rintro (h | ⟨h1, h2⟩)
    · norm_num at h
    · norm_num at h1
  · have key : ∀ m bb : ℝ, m = 70001 → bb = 700 →
        closest_distance_to_line m bb 0 300 < 200 := by
      rintro m bb rfl rfl
      exact c2_dist
    exact key _ _ (by norm_num) (by norm_num)

lemma c2_not_degenerate : ¬ degenerate_pair c2cfg := by
  rintro ⟨i, j, hij, hx, hy⟩
  fin_cases i <;> fin_cases j <;> simp_all [c2cfg] <;> norm_num at hy

lemma c2_not_self : ¬ self_intersect c2cfg 200 := by
  rintro ⟨i, j, hij, hd⟩
  fin_cases i <;> fin_cases j <;> simp_all [c2cfg] <;> norm_num at hd

lemma c2_not_origin : ¬ Trials.intersect_origin c2cfg 200 := by
  rintro ⟨p, hp, hlt⟩
  simp only [c2cfg, List.mem_cons, List.not_mem_nil, or_false] at hp
  rcases hp with rfl | rfl <;> norm_num at hlt

lemma degenerate_pair_map_foci (g : Pt → ℝ × ℝ) (points : List Pt) :
    degenerate_pair (points.map (fun p => Pt.mk p.x p.y (g p).1 (g p).2)) ↔
      degenerate_pair points := by
  unfold degenerate_pair
  constructor
  · rintro ⟨i, j, hij, hx, hy⟩
    refine ⟨Fin.cast (List.length_map _ _) i,
      Fin.cast (List.length_map _ _) j, hij, ?_, ?_⟩
    · simpa [List.get_eq_getElem, List.getElem_map] using hx
    · simpa [List.get_eq_getElem, List.getElem_map] using hy
  · rintro ⟨i, j, hij, hx, hy⟩
    refine ⟨Fin.cast (List.length_map _ _).symm i,
      Fin.cast (List.length_map _ _).symm j, hij, ?_, ?_⟩
    · simpa [List.get_eq_getElem, List.getElem_map] using hx
    · simpa [List.get_eq_getElem, List.getElem_map] using hy

lemma self_intersect_map_foci (g : Pt → ℝ × ℝ) (points : List Pt) (r : ℝ) :
    self_intersect (points.map (fun p => Pt.mk p.x p.y (g p).1 (g p).2)) r ↔
      self_intersect points r := by
  unfold self_intersect
  constructor
  · rintro ⟨i, j, hij, hd⟩
    refine ⟨Fin.cast (List.length_map _ _) i,
      Fin.cast (List.length_map _ _) j, hij, ?_⟩
    simpa [List.get_eq_getElem, List.getElem_map] using hd
  · rintro ⟨i, j, hij, hd⟩
    refine ⟨Fin.cast (List.length_map _ _).symm i,
      Fin.cast (List.length_map _ _).symm j, hij, ?_⟩
    simpa [List.get_eq_getElem, List.getElem_map] using hd

lemma intersect_origin_line_map_foci (g : Pt → ℝ × ℝ) (points : List Pt)
    (r : ℝ) :
    LineRandom.intersect_origin_line
        (points.map (fun p => Pt.mk p.x p.y (g p).1 (g p).2)) r ↔
      LineRandom.intersect_origin_line points r := by
  unfold LineRandom.intersect_origin_line
  constructor
  · rintro ⟨p, hp, hlt⟩
    obtain ⟨q, hq, rfl⟩ := List.mem_map.mp hp
    exact ⟨q, hq, hlt⟩
  · rintro ⟨p, hp, hlt⟩
    exact ⟨Pt.mk p.x p.y (g p).1 (g p).2, List.mem_map_of_mem _ hp, hlt⟩

/-- Claim C2, counterexample: for the configuration `c2cfg` every one of
the coincidence, pairwise-overlap, and origin-disk checks passes, yet the
per-step validator of the relaxation engine reports a violation — its
verdict here is decided precisely by the visibility check that the claim
says it does not perform. -/
theorem per_step_validator_visibility_counterexample :
    ¬ degenerate_pair c2cfg ∧ ¬ self_intersect c2cfg 200 ∧
    ¬ Trials.intersect_origin c2cfg 200 ∧
    Trials.in_violation_full c2cfg 200 1600 :=
  ⟨c2_not_degenerate, c2_not_self, c2_not_origin,
    Or.inr (Or.inr (Or.inr ⟨⟨0, 700, 0, 0⟩, by simp [c2cfg], c2_blocked⟩))⟩

/-- Claim C2, amended: it is the constructive variant's validator
(`in_violation`) that performs no visibility check — its verdict is
unchanged under arbitrary reassignment of every focus — whereas the
relaxation engine's per-step validator (`in_violation_full`) does perform
the per-point visibility check: any blocked point makes it report a
violation, so its verdict is not independent of line-of-sight blocking. -/
theorem per_step_validator_visibility :
    (∀ (g : Pt → ℝ × ℝ) (points : List Pt) (r a : ℝ),
        LineRandom.in_violation
            (points.map (fun p => Pt.mk p.x p.y (g p).1 (g p).2)) r a ↔
          LineRandom.in_violation points r a) ∧
    (∀ (points : List Pt) (r a : ℝ) (p : Pt), p ∈ points →
        Trials.is_blocked p points r → Trials.in_violation_full points r a) := by
  constructor
  · intro g points r a
    unfold LineRandom.in_violation
    rw [degenerate_pair_map_foci, self_intersect_map_foci,
      intersect_origin_line_map_foci]
  · intro points r a p hp hb
    exact Or.inr (Or.inr (Or.inr ⟨p, hp, hb⟩))

/-- Witness for the amended C2 at `c2cfg` and a concrete focus
reassignment. -/
theorem per_step_validator_visibility_witness :
    (LineRandom.in_violation
        (c2cfg.map (fun p => Pt.mk p.x p.y ((fun _ => ((9 : ℝ), (9 : ℝ))) p).1
          ((fun _ => ((9 : ℝ), (9 : ℝ))) p).2)) 5 1600 ↔
      LineRandom.in_violation c2cfg 5 1600) ∧
    (Pt.mk 0 700 0 0) ∈ c2cfg ∧
    Trials.in_violation_full c2cfg 200 1600 :=
  ⟨per_step_validator_visibility.1 (fun _ => (9, 9)) c2cfg 5 1600,
    by simp [c2cfg],
    per_step_validator_visibility.2 c2cfg 200 1600 _ (by simp [c2cfg])
      c2_blocked⟩
